import Mathlib

/-!
Verification of the audio pipeline of the reject-reactor web app.

The development shallowly embeds the audio-relevant parts of the two
source files:

* utils.ts : the PCM16 codec (createBlobFromFloat32, decodeAudioData)
  and the waveform-envelope computation in resampleAndEncodeAudio;
* index.tsx : the streaming playback scheduler (the onmessage audio-chunk
  handler of connectToSession, pauseAudio), the effects-chain parameter
  automation (updateFxChain, handleControlChange, the Kaoss controller)
  and the bit-crusher (bitCrusherProcess).

Times, gains and samples are modelled as rationals; the operations the
claims are about (comparisons, clamping, multiplication by powers of two,
truncation to integer) are exact in IEEE doubles, so the rational model
is faithful on these paths.
-/

/-- Truncation toward zero, the conversion JavaScript applies when a
float is assigned to an element of an Int16Array (after clamping the
value is in range, so only the ToIntegerOrInfinity truncation acts). -/
def ratTrunc (q : ℚ) : ℤ := if 0 ≤ q then ⌊q⌋ else ⌈q⌉

/-- JavaScript Math.round: round half toward positive infinity,
equal to the floor of x + 1/2. -/
def jsRound (q : ℚ) : ℤ := ⌊q + 1/2⌋

/-- Per-sample int16 conversion of createBlobFromFloat32 (utils.ts:35):
Math.max(-32768, Math.min(32767, s * 32768)) assigned to an Int16Array
element, which truncates the fractional part toward zero. -/
def encSample (s : ℚ) : ℤ := ratTrunc (max (-32768) (min 32767 (s * 32768)))

/-- Two-complement 16-bit representation of an integer, as the unsigned
value stored in the Int16Array backing buffer. -/
def toUint16 (n : ℤ) : ℕ := (n % 65536).toNat

/-- Little-endian byte serialization of one int16 sample, as produced by
viewing the Int16Array buffer as a Uint8Array (utils.ts:39). -/
def int16ToBytesLE (n : ℤ) : List ℕ := [toUint16 n % 256, toUint16 n / 256]

/-- createBlobFromFloat32 (utils.ts:30-42): convert every float sample to
int16 and serialize the array little-endian.  The base64 text wrapping is
byte-for-byte reversible and omitted here. -/
def createBlobFromFloat32 (data : List ℚ) : List ℕ :=
  (data.map encSample).flatMap int16ToBytesLE

/-- DataView.getInt16 with littleEndian = true (utils.ts:130): read two
bytes at the given offset and reinterpret the unsigned 16-bit value as a
signed one; none when the read is out of range (a DataView would throw). -/
def readInt16LE (data : List ℕ) (off : ℕ) : Option ℤ :=
  match data[off]?, data[off + 1]? with
  | some b0, some b1 =>
      let u := b0 + 256 * b1
      some (if u < 32768 then (u : ℤ) else (u : ℤ) - 65536)
  | _, _ => none

/-- Inner sample loop of decodeAudioData (utils.ts:128-133): read n
samples for one channel starting at byte offset dataIndex, advancing by
stride = numChannels * 2 bytes per sample, each sample mapped to
sample / 32768. -/
def readChannel (data : List ℕ) (stride : ℕ) : ℕ → ℕ → Option (List ℚ)
  | 0, _ => some []
  | n + 1, dataIndex =>
    match readInt16LE data dataIndex, readChannel data stride n (dataIndex + stride) with
    | some v, some rest => some (((v : ℚ) / 32768) :: rest)
    | _, _ => none

/-- Channel loop of decodeAudioData (utils.ts:125-134): channel c starts
at byte offset c * 2; k is the number of channels still to read. -/
def decodeChannelsFrom (data : List ℕ) (nc numSamples : ℕ) : ℕ → ℕ → Option (List (List ℚ))
  | 0, _ => some []
  | k + 1, c =>
    match readChannel data (nc * 2) numSamples (c * 2),
          decodeChannelsFrom data nc numSamples k (c + 1) with
    | some ch, some rest => some (ch :: rest)
    | _, _ => none

/-- decodeAudioData (utils.ts:106-136): numSamples is the floor division
byteLength / 2 / numChannels; when it is zero the function bails out with
a one-sample-per-channel silent buffer (ctx.createBuffer(nc, 1, rate)). -/
def decodeAudioData (data : List ℕ) (numChannels : ℕ) : Option (List (List ℚ)) :=
  let numSamples := data.length / 2 / numChannels
  if numSamples = 0 then some (List.replicate numChannels [0])
  else decodeChannelsFrom data numChannels numSamples numChannels 0

/-- Spec-words formulation of the per-sample encoder (spec section 4.1):
round(clamp(s, -1, 1) * 32768) clamped to the signed 16-bit range, with
round being JavaScript Math.round; kept only to compare against the
implemented encSample. -/
def specEncSample (s : ℚ) : ℤ :=
  max (-32768) (min 32767 (jsRound (max (-1) (min 1 s) * 32768)))

/-- Waveform-envelope loop of resampleAndEncodeAudio (utils.ts:84-99):
1024 windows of width step = floor(length / 1024); each entry is the
maximum absolute value over its window, starting from 0. -/
def waveformData (mono : List ℚ) : List ℚ :=
  let step := mono.length / 1024
  (List.range 1024).map (fun i =>
    (List.range step).foldl (fun m j => max m |mono.getD (i * step + j) 0|) 0)

/-- Playback states of the app (index.tsx:59). -/
inductive PlaybackState
  | stopped
  | playing
  | loading
  | paused
deriving DecidableEq, Repr

/-- State read and written by the audio-chunk handler: the playback state
and the scheduler cursor nextStartTime (index.tsx:1657,1659), with 0 the
uninitialized sentinel. -/
structure SchedState where
  playbackState : PlaybackState
  nextStartTime : ℚ
deriving DecidableEq, Repr

/-- Lead buffer in seconds (index.tsx:1658, bufferTime = 2). -/
def bufferTime : ℚ := 2

/-- Result of one run of the audio-chunk branch of the onmessage handler:
the updated state, the start time passed to source.start if the segment
was scheduled, and the delay in milliseconds of the setTimeout that later
sets playbackState to playing, when one was armed. -/
structure ChunkResult where
  state : SchedState
  scheduledAt : Option ℚ
  deferredPlayMs : Option ℚ
deriving DecidableEq, Repr

/-- Audio-chunk branch of the onmessage handler of connectToSession
(index.tsx:2177-2208): return early when paused or stopped; when
nextStartTime is the 0 sentinel re-base it to currentTime + bufferTime
and arm the deferred transition to playing; when the cursor has fallen
behind currentTime switch to loading, reset the cursor and drop the
segment; otherwise schedule the segment at the cursor and advance the
cursor by the segment duration. -/
def handleAudioChunk (s : SchedState) (currentTime dur : ℚ) : ChunkResult :=
  if s.playbackState = PlaybackState.paused ∨ s.playbackState = PlaybackState.stopped then
    ⟨s, none, none⟩
  else
    let init := s.nextStartTime = 0
    let s1 : SchedState :=
      if init then { s with nextStartTime := currentTime + bufferTime } else s
    let defer : Option ℚ := if init then some (bufferTime * 1000) else none
    if s1.nextStartTime < currentTime then
      ⟨⟨PlaybackState.loading, 0⟩, none, defer⟩
    else
      ⟨{ s1 with nextStartTime := s1.nextStartTime + dur }, some s1.nextStartTime, defer⟩

/-- Run the chunk handler over a list of (currentTime, duration) arrivals,
collecting for each arrival the start time it was scheduled at, if any. -/
def runChunks (s : SchedState) : List (ℚ × ℚ) → SchedState × List (Option ℚ)
  | [] => (s, [])
  | (t, d) :: rest =>
    let r := handleAudioChunk s t d
    let p := runChunks r.state rest
    (p.1, r.scheduledAt :: p.2)

/-- The valid-clock condition of the gapless claim, at one arrival: the
cursor is not the sentinel, has not fallen behind the device clock, and
playback is neither paused nor stopped. -/
def validAtB (s : SchedState) (t : ℚ) : Bool :=
  decide (s.nextStartTime ≠ 0) && decide (¬ s.nextStartTime < t) &&
    decide (s.playbackState ≠ PlaybackState.paused) &&
    decide (s.playbackState ≠ PlaybackState.stopped)

/-- The valid-clock condition held at every arrival of the run. -/
def allValidB (s : SchedState) : List (ℚ × ℚ) → Bool
  | [] => true
  | (t, d) :: rest => validAtB s t && allValidB (handleAudioChunk s t d).state rest

/-- Sum of the durations of the first k arrivals. -/
def durTake (inputs : List (ℚ × ℚ)) (k : ℕ) : ℚ :=
  ((inputs.take k).map Prod.snd).sum

/-- One scheduled gain-automation command on the master output gain
(index.tsx:2382-2386): value at a time, either set instantly
(isRamp = false, setValueAtTime) or reached by a linear ramp from the
previous point (isRamp = true, linearRampToValueAtTime). -/
structure GainEvent where
  time : ℚ
  value : ℚ
  isRamp : Bool
deriving DecidableEq, Repr

/-- App state touched by pauseAudio: the scheduler state, the recording
flag, the automation issued on masterOut.gain, the identity of the gain
node currently referenced by outputNode, a fresh-node counter, and the
connect edges made so far (node id, target). -/
structure AppState where
  sched : SchedState
  isRecording : Bool
  masterGainEvents : List GainEvent
  outputNodeId : ℕ
  nextNodeId : ℕ
  connections : List (ℕ × String)
deriving DecidableEq, Repr

/-- pauseAudio (index.tsx:2378-2390): stop any recording, pause the
session (external), set playbackState to paused, pin masterOut.gain at 1
now and ramp it linearly to 0 over 0.1 s, reset nextStartTime to the
sentinel, and replace outputNode with a freshly created gain node
connected to the low-pass filter.  The old node is only dereferenced,
never disconnected. -/
def pauseAudio (s : AppState) (now : ℚ) : AppState :=
  { sched := ⟨PlaybackState.paused, 0⟩
    isRecording := false
    masterGainEvents := s.masterGainEvents ++ [⟨now, 1, false⟩, ⟨now + 1/10, 0, true⟩]
    outputNodeId := s.nextNodeId
    nextNodeId := s.nextNodeId + 1
    connections := s.connections ++ [(s.nextNodeId, "lowPassFilter")] }

/-- Kaoss programs selectable in the UI (index.tsx:2898-2899). -/
inductive KaossProgram
  | lpfSweepDelay
  | hpfReverbWash
deriving DecidableEq, Repr

/-- Effects-chain parameter set and Kaoss controller state of the PromptDj
element (index.tsx:1676-1716). -/
structure FxState where
  lowPassFreq : ℚ
  highPassFreq : ℚ
  reverbMix : ℚ
  delayTime : ℚ
  delayFeedback : ℚ
  delayMix : ℚ
  distortionAmount : ℚ
  phaserRate : ℚ
  phaserMix : ℚ
  bitDepth : ℚ
  sampleRateReduction : ℚ
  vinylCrackle : ℚ
  bpm : ℚ
  temperature : ℚ
  topK : ℚ
  guidanceScale : ℚ
  isLpfOn : Bool
  isHpfOn : Bool
  isReverbOn : Bool
  isDelayOn : Bool
  isDistortionOn : Bool
  isPhaserOn : Bool
  isBitCrusherOn : Bool
  isVinylSimOn : Bool
  kaossX : ℚ
  kaossY : ℚ
  activeKaossProgram : KaossProgram
  isKaossActive : Bool
deriving DecidableEq, Repr

/-- Initial field values of the PromptDj element (index.tsx:1676-1705). -/
def initFxState : FxState where
  lowPassFreq := 22050
  highPassFreq := 20
  reverbMix := 0
  delayTime := 1/2
  delayFeedback := 3/10
  delayMix := 0
  distortionAmount := 0
  phaserRate := 1/2
  phaserMix := 0
  bitDepth := 8
  sampleRateReduction := 4
  vinylCrackle := 0
  bpm := 120
  temperature := 3/4
  topK := 40
  guidanceScale := 7
  isLpfOn := true
  isHpfOn := true
  isReverbOn := true
  isDelayOn := true
  isDistortionOn := true
  isPhaserOn := true
  isBitCrusherOn := false
  isVinylSimOn := false
  kaossX := 1/2
  kaossY := 1/2
  activeKaossProgram := KaossProgram.lpfSweepDelay
  isKaossActive := false

/-- updateFxChain (index.tsx:1905-1937), restricted to the ramp targets it
issues: the list of linearRampToValueAtTime commands, one (parameter name,
target value) pair per call, in source order.  The distortion-curve
assignment is not a ramp and is outside this list. -/
def updateFxChain (s : FxState) : List (String × ℚ) :=
  [("lowPassFilter.frequency", if s.isLpfOn then s.lowPassFreq else 22050),
   ("highPassFilter.frequency", if s.isHpfOn then s.highPassFreq else 20),
   ("bitCrusherBypass.gain", if s.isBitCrusherOn then 0 else 1),
   ("distortionBypass.gain", if s.isDistortionOn then 0 else 1),
   ("phaserLFO.frequency", s.phaserRate),
   ("phaserLfoGain.gain", 2000),
   ("phaserWet.gain", s.phaserMix),
   ("phaserBypass.gain", if s.isPhaserOn then 1 - s.phaserMix else 1),
   ("delayNode.delayTime", s.delayTime),
   ("delayFeedbackGain.gain", s.delayFeedback),
   ("delayWet.gain", s.delayMix),
   ("delayBypass.gain", if s.isDelayOn then 1 - s.delayMix else 1),
   ("reverbWet.gain", s.reverbMix),
   ("reverbBypass.gain", if s.isReverbOn then 1 - s.reverbMix else 1),
   ("vinylNoiseGain.gain", if s.isVinylSimOn then s.vinylCrackle else 0)]

/-- handleControlChange (index.tsx:2658-2696): the field assignment done
for each slider label; unknown labels change nothing. -/
def handleControlChange (s : FxState) (label : String) (value : ℚ) : FxState :=
  if label = "LPF" then { s with lowPassFreq := value }
  else if label = "HPF" then { s with highPassFreq := value }
  else if label = "Distort" then { s with distortionAmount := value }
  else if label = "Phaser Rate" then { s with phaserRate := value }
  else if label = "Phaser Mix" then { s with phaserMix := value }
  else if label = "Delay Time" then { s with delayTime := value }
  else if label = "Delay Fbk" then { s with delayFeedback := value }
  else if label = "Delay Mix" then { s with delayMix := value }
  else if label = "Reverb" then { s with reverbMix := value }
  else if label = "Bits" then { s with bitDepth := value }
  else if label = "Rate" then { s with sampleRateReduction := value }
  else if label = "Crackle" then { s with vinylCrackle := value }
  else if label = "BPM" then { s with bpm := value }
  else if label = "Temp" then { s with temperature := value }
  else if label = "Diversity" then { s with topK := value }
  else if label = "Guidance" then { s with guidanceScale := value }
  else s

/-- handleFxToggle (index.tsx:2698-2711). -/
def handleFxToggle (s : FxState) (effect : String) : FxState :=
  if effect = "LPF" then { s with isLpfOn := !s.isLpfOn }
  else if effect = "HPF" then { s with isHpfOn := !s.isHpfOn }
  else if effect = "Distortion" then { s with isDistortionOn := !s.isDistortionOn }
  else if effect = "Phaser" then { s with isPhaserOn := !s.isPhaserOn }
  else if effect = "Delay" then { s with isDelayOn := !s.isDelayOn }
  else if effect = "Reverb" then { s with isReverbOn := !s.isReverbOn }
  else if effect = "Bit Crush" then { s with isBitCrusherOn := !s.isBitCrusherOn }
  else if effect = "Vinyl Sim" then { s with isVinylSimOn := !s.isVinylSimOn }
  else s

/-- updateKaossFx (index.tsx:2805-2838).  Math.pow with a fractional
exponent has no rational value, so the exponential curve is taken as an
explicit function argument pw standing for Math.pow; every theorem below
holds for all pw.  invertedY is 1 - kaossY (index.tsx:2808). -/
def updateKaossFx (pw : ℚ → ℚ → ℚ) (s : FxState) : FxState :=
  match s.activeKaossProgram with
  | KaossProgram.lpfSweepDelay =>
      { s with
        lowPassFreq := 100 * pw (18000 / 100) s.kaossX
        delayFeedback := (1 - s.kaossY) * (85 / 100)
        delayMix := 2/10 + (1 - s.kaossY) * (7/10)
        isLpfOn := true
        isDelayOn := true
        isHpfOn := false
        isReverbOn := false
        reverbMix := 0 }
  | KaossProgram.hpfReverbWash =>
      { s with
        highPassFreq := 60 * pw (2000 / 60) s.kaossX
        reverbMix := 15/100 + (1 - s.kaossY) * (65/100)
        isHpfOn := true
        isReverbOn := true
        isLpfOn := false
        isDelayOn := false
        delayMix := 0 }

/-- updateKaossPosition (index.tsx:2796-2803): the pad-relative pointer
coordinates are clamped into [0, 1] on both axes, stored in kaossXY, and
the active program mapping is applied. -/
def updateKaossPosition (pw : ℚ → ℚ → ℚ) (s : FxState) (px py : ℚ) : FxState :=
  updateKaossFx pw { s with kaossX := max 0 (min 1 px), kaossY := max 0 (min 1 py) }

/-- resetFxToNeutral (index.tsx:2840-2846). -/
def resetFxToNeutral (s : FxState) : FxState :=
  { s with reverbMix := 0, delayMix := 0, lowPassFreq := 22050, highPassFreq := 20 }

/-- handleKaossProgramChange (index.tsx:2848-2853): store the selected
program and, if a touch is active, re-apply the mapping at the current
coordinates. -/
def handleKaossProgramChange (pw : ℚ → ℚ → ℚ) (s : FxState) (p : KaossProgram) : FxState :=
  let s1 := { s with activeKaossProgram := p }
  if s1.isKaossActive then updateKaossFx pw s1 else s1

/-- Labels of the fx-slider elements actually rendered in the template
(index.tsx:2908-2961); no slider with label Delay Fbk, Delay Time or
Phaser Rate exists in the markup, and fx-slider (index.tsx:1336-1347) is
the only emitter of fx-change events. -/
def renderedSliderLabels : List String :=
  ["BPM", "Temp", "Diversity", "Guidance", "LPF", "HPF", "Bits", "Rate",
   "Distort", "Phaser Mix", "Delay Mix", "Reverb", "Crackle"]

/-- Effect names passed to handleFxToggle by the rendered control labels
(index.tsx:2936-2960). -/
def renderedToggleNames : List String :=
  ["LPF", "HPF", "Bit Crush", "Distortion", "Phaser", "Delay", "Reverb", "Vinyl Sim"]

/-- One user-interface-driven transition of the effects-chain state: an
fx-change event from a rendered slider (any value), a toggle click, a
Kaoss pointer update, a Kaoss program change, the delayed reset to
neutral after a Kaoss release, or the touch-active flag changing. -/
inductive FxUiStep (pw : ℚ → ℚ → ℚ) : FxState → FxState → Prop
  | controlChange (s : FxState) (label : String) (value : ℚ)
      (h : label ∈ renderedSliderLabels) :
      FxUiStep pw s (handleControlChange s label value)
  | fxToggle (s : FxState) (effect : String) (h : effect ∈ renderedToggleNames) :
      FxUiStep pw s (handleFxToggle s effect)
  | kaossPointer (s : FxState) (px py : ℚ) :
      FxUiStep pw s (updateKaossPosition pw s px py)
  | kaossProgram (s : FxState) (p : KaossProgram) :
      FxUiStep pw s (handleKaossProgramChange pw s p)
  | resetNeutral (s : FxState) :
      FxUiStep pw s (resetFxToNeutral s)
  | kaossActive (s : FxState) (b : Bool) :
      FxUiStep pw s { s with isKaossActive := b }

/-- States of the effects chain reachable from the initial state through
user-interface events. -/
def FxReachable (pw : ℚ → ℚ → ℚ) (s : FxState) : Prop :=
  Relation.ReflTransGen (FxUiStep pw) initFxState s

/-- Bit-depth quantization of bitCrusherProcess (index.tsx:1888):
step * Math.floor(sample / step + 0.5). -/
def crusherQuantize (step x : ℚ) : ℚ := step * (⌊x / step + 1/2⌋ : ℤ)

/-- Sample loop of bitCrusherProcess (index.tsx:1881-1890): i is the loop
index, hold the pair of most recent held samples (bitCrusherLastSample);
the hold is refreshed whenever i mod srr is 0 (with srr = 0, the
JavaScript expression i % 0 is NaN and never equal to 0). -/
def bitCrusherGo (step : ℚ) (srr : ℤ) : ℕ → ℚ × ℚ → List (ℚ × ℚ) → List (ℚ × ℚ)
  | _, _, [] => []
  | i, hold, x :: rest =>
    let hold2 := if srr ≠ 0 ∧ (i : ℤ) % srr = 0 then x else hold
    (crusherQuantize step hold2.1, crusherQuantize step hold2.2) ::
      bitCrusherGo step srr (i + 1) hold2 rest

/-- bitCrusherProcess (index.tsx:1873-1891) on one block of stereo frames:
step = 0.5 ^ bitDepth, srr = Math.round(sampleRateReduction); the Bits
slider takes integer steps so the exponent is a natural number. -/
def bitCrusherProcess (bitDepth : ℕ) (sampleRateReduction : ℚ)
    (hold : ℚ × ℚ) (input : List (ℚ × ℚ)) : List (ℚ × ℚ) :=
  bitCrusherGo ((1/2) ^ bitDepth) (jsRound sampleRateReduction) 0 hold input

theorem ratTrunc_intCast (n : ℤ) : ratTrunc (n : ℚ) = n := by
  unfold ratTrunc
  split
  · exact Int.floor_intCast n
  · exact Int.ceil_intCast n

theorem ratTrunc_mono {x y : ℚ} (h : x ≤ y) : ratTrunc x ≤ ratTrunc y := by
  unfold ratTrunc
  by_cases hx : 0 ≤ x
  · have hy : 0 ≤ y := le_trans hx h
    simp only [hx, hy, if_true]
    exact Int.floor_mono h
  · by_cases hy : 0 ≤ y
    · simp only [hx, hy, if_true, if_false]
      have hc : ⌈x⌉ ≤ (0 : ℤ) := Int.ceil_le.mpr (by exact_mod_cast le_of_not_le hx)
      exact le_trans hc (Int.floor_nonneg.mpr hy)
    · simp only [hx, hy, if_false]
      exact Int.ceil_mono h

theorem abs_ratTrunc_sub_lt (q : ℚ) : |(ratTrunc q : ℚ) - q| < 1 := by
  unfold ratTrunc
  rcases le_or_lt 0 q with h | h
  · rw [if_pos h, abs_lt]
    constructor
    · linarith [Int.lt_floor_add_one q]
    · linarith [Int.floor_le q]
  · rw [if_neg (not_le.mpr h), abs_lt]
    constructor
    · linarith [Int.le_ceil q]
    · linarith [Int.ceil_lt_add_one q]

theorem ratTrunc_clamp (x : ℚ) (lo hi : ℤ) (h : lo ≤ hi) :
    ratTrunc (max (lo : ℚ) (min (hi : ℚ) x)) = max lo (min hi (ratTrunc x)) := by
  have hQ : (lo : ℚ) ≤ (hi : ℚ) := by exact_mod_cast h
  rcases le_total x lo with hxlo | hxlo
  · rw [min_eq_right (le_trans hxlo hQ), max_eq_left hxlo, ratTrunc_intCast]
    have h1 : ratTrunc x ≤ lo := by
      calc ratTrunc x ≤ ratTrunc (lo : ℚ) := ratTrunc_mono hxlo
        _ = lo := ratTrunc_intCast lo
    omega
  · rcases le_total (hi : ℚ) x with hxhi | hxhi
    · rw [min_eq_left hxhi, max_eq_right hQ, ratTrunc_intCast]
      have h1 : hi ≤ ratTrunc x := by
        calc hi = ratTrunc (hi : ℚ) := (ratTrunc_intCast hi).symm
          _ ≤ ratTrunc x := ratTrunc_mono hxhi
      omega
    · rw [min_eq_right hxhi, max_eq_right hxlo]
      have h1 : lo ≤ ratTrunc x := by
        calc lo = ratTrunc (lo : ℚ) := (ratTrunc_intCast lo).symm
          _ ≤ ratTrunc x := ratTrunc_mono hxlo
      have h2 : ratTrunc x ≤ hi := by
        calc ratTrunc x ≤ ratTrunc (hi : ℚ) := ratTrunc_mono hxhi
          _ = hi := ratTrunc_intCast hi
      omega

/-- C4 (counterexample): the claim says the encoder computes
round(clamp(s, -1, 1) * 32768); at s = 1/65536 the spec formula rounds
0.5 to 1 while the code truncates it to 0. -/
theorem encoder_rounds_counterexample :
    encSample (1 / 65536) = 0 ∧ specEncSample (1 / 65536) = 1 ∧
      encSample (1 / 65536) ≠ specEncSample (1 / 65536) := by
  have h1 : encSample (1 / 65536) = 0 := by
    unfold encSample ratTrunc
    norm_num [min_def, max_def]
  have h2 : specEncSample (1 / 65536) = 1 := by
    unfold specEncSample jsRound
    norm_num [min_def, max_def]
  exact ⟨h1, h2, by rw [h1, h2]; decide⟩

/-- C4 (amended): for every sample s the encoder computes
truncate(clamp(s, -1, 1) * 32768) clamped to the signed 16-bit range
[-32768, 32767], truncation toward zero taking the place of the rounding
the spec names; the encoder is a pure function of s. -/
theorem encoder_truncates_clamped (s : ℚ) :
    encSample s = max (-32768) (min 32767 (ratTrunc (max (-1) (min 1 s) * 32768))) := by
  have e1 := ratTrunc_clamp (s * 32768) (-32768) 32767 (by norm_num)
  push_cast at e1
  have e2 : max (-1 : ℚ) (min 1 s) * 32768 = max (-32768 : ℚ) (min 32768 (s * 32768)) := by
    rw [max_mul_of_nonneg _ _ (by norm_num : (0 : ℚ) ≤ 32768),
      min_mul_of_nonneg _ _ (by norm_num : (0 : ℚ) ≤ 32768)]
    norm_num
  have e3 := ratTrunc_clamp (s * 32768) (-32768) 32768 (by norm_num)
  push_cast at e3
  unfold encSample
  rw [e1, e2, e3]
  omega

theorem encSample_bounds (s : ℚ) : -32768 ≤ encSample s ∧ encSample s ≤ 32767 := by
  have e1 := ratTrunc_clamp (s * 32768) (-32768) 32767 (by norm_num)
  push_cast at e1
  unfold encSample
  rw [e1]
  omega

theorem encSample_error (s : ℚ) (h1 : -1 ≤ s) (h2 : s ≤ 1) :
    |(encSample s : ℚ) / 32768 - s| ≤ 1 / 32768 := by
  rcases le_or_lt (s * 32768) 32767 with hx | hx
  · have hx2 : (-32768 : ℚ) ≤ s * 32768 := by linarith
    have he : encSample s = ratTrunc (s * 32768) := by
      unfold encSample
      rw [min_eq_right hx, max_eq_right hx2]
    have hq : (encSample s : ℚ) / 32768 - s = ((ratTrunc (s * 32768) : ℚ) - s * 32768) / 32768 := by
      rw [he]; ring
    rw [hq, abs_div, abs_of_pos (by norm_num : (0 : ℚ) < 32768)]
    have hb := le_of_lt (abs_ratTrunc_sub_lt (s * 32768))
    gcongr
  · have he : encSample s = 32767 := by
      unfold encSample
      rw [min_eq_left (le_of_lt hx), max_eq_right (by norm_num : (-32768 : ℚ) ≤ 32767)]
      rw [show ((32767 : ℚ)) = ((32767 : ℤ) : ℚ) by norm_num, ratTrunc_intCast]
    rw [he, abs_le]
    constructor
    · push_cast
      linarith
    · push_cast
      nlinarith

theorem readInt16LE_append_bytes (n : ℤ) (h1 : -32768 ≤ n) (h2 : n ≤ 32767)
    (rest : List ℕ) : readInt16LE (int16ToBytesLE n ++ rest) 0 = some n := by
  have ht : ((toUint16 n : ℕ) : ℤ) = n % 65536 := by
    unfold toUint16
    exact Int.toNat_of_nonneg (Int.emod_nonneg n (by norm_num))
  unfold int16ToBytesLE readInt16LE
  simp only [List.cons_append, List.getElem?_cons_zero, List.getElem?_cons_succ, Nat.zero_add,
    Option.some.injEq]
  rw [Nat.mod_add_div]
  split <;> omega

theorem readInt16LE_cons_cons (x y : ℕ) (l : List ℕ) (k : ℕ) :
    readInt16LE (x :: y :: l) (k + 2) = readInt16LE l k := by
  unfold readInt16LE
  simp only [List.getElem?_cons_succ]

theorem createBlob_cons (s : ℚ) (rest : List ℚ) :
    createBlobFromFloat32 (s :: rest) =
      int16ToBytesLE (encSample s) ++ createBlobFromFloat32 rest := by
  simp [createBlobFromFloat32]

theorem createBlob_length (b : List ℚ) :
    (createBlobFromFloat32 b).length = 2 * b.length := by
  induction b with
  | nil => rfl
  | cons s rest ih =>
    rw [createBlob_cons, List.length_append, ih]
    simp [int16ToBytesLE]
    omega

theorem createBlob_readInt16 (b : List ℚ) :
    ∀ i, i < b.length →
      readInt16LE (createBlobFromFloat32 b) (2 * i) = some (encSample (b.getD i 0)) := by
  induction b with
  | nil => intro i hi; simp at hi
  | cons s rest ih =>
    intro i hi
    rw [createBlob_cons]
    cases i with
    | zero =>
      obtain ⟨hlo, hhi⟩ := encSample_bounds s
      simpa using readInt16LE_append_bytes (encSample s) hlo hhi (createBlobFromFloat32 rest)
    | succ j =>
      have hsh : 2 * (j + 1) = 2 * j + 2 := by omega
      rw [hsh]
      unfold int16ToBytesLE
      rw [List.cons_append, List.cons_append, List.nil_append, readInt16LE_cons_cons]
      have hj : j < rest.length := by simpa using Nat.lt_of_succ_lt_succ hi
      simpa using ih j hj

theorem readInt16LE_isSome (data : List ℕ) (off : ℕ) (h : off + 1 < data.length) :
    ∃ v, readInt16LE data off = some v := by
  unfold readInt16LE
  rw [List.getElem?_eq_getElem (by omega : off < data.length), List.getElem?_eq_getElem h]
  exact ⟨_, rfl⟩

theorem readChannel_spec (data : List ℕ) (stride : ℕ) :
    ∀ n start, (∀ i, i < n → start + stride * i + 1 < data.length) →
      ∃ l, readChannel data stride n start = some l ∧ l.length = n ∧
        ∀ i, i < n →
          l[i]? = (readInt16LE data (start + stride * i)).map (fun v => (v : ℚ) / 32768) := by
  intro n
  induction n with
  | zero =>
    intro start _
    exact ⟨[], rfl, rfl, by omega⟩
  | succ m ih =>
    intro start h
    have h0 : start + 1 < data.length := by
      have := h 0 (by omega)
      simpa using this
    obtain ⟨v, hv⟩ := readInt16LE_isSome data start h0
    obtain ⟨l, hl, hlen, hget⟩ := ih (start + stride) (by
      intro i hi
      have hh := h (i + 1) (by omega)
      rw [Nat.mul_succ] at hh
      omega)
    refine ⟨((v : ℚ) / 32768) :: l, ?_, by simp [hlen], ?_⟩
    · unfold readChannel
      rw [hv, hl]
    · intro i hi
      cases i with
      | zero =>
        simp only [List.getElem?_cons_zero, Nat.mul_zero, Nat.add_zero]
        rw [hv]
        rfl
      | succ j =>
        have hj : j < m := by omega
        have := hget j hj
        rw [List.getElem?_cons_succ]
        rw [this, Nat.mul_succ]
        have harith : start + (stride * j + stride) = start + stride + stride * j := by omega
        rw [harith]

theorem decodeChannelsFrom_spec (data : List ℕ) (nc ns : ℕ)
    (hread : ∀ c, c < nc → ∀ i, i < ns → c * 2 + nc * 2 * i + 1 < data.length) :
    ∀ k c, k + c = nc →
      ∃ chans, decodeChannelsFrom data nc ns k c = some chans ∧ chans.length = k ∧
        ∀ j, j < k → chans[j]? = readChannel data (nc * 2) ns ((c + j) * 2) := by
  intro k
  induction k with
  | zero =>
    intro c _
    exact ⟨[], rfl, rfl, by omega⟩
  | succ m ih =>
    intro c hc
    have hclt : c < nc := by omega
    obtain ⟨ch, hch, _, _⟩ := readChannel_spec data (nc * 2) ns (c * 2) (by
      intro i hi
      have := hread c hclt i hi
      omega)
    obtain ⟨chans, hchans, hlen, hget⟩ := ih (c + 1) (by omega)
    refine ⟨ch :: chans, ?_, by simp [hlen], ?_⟩
    · unfold decodeChannelsFrom
      rw [hch, hchans]
    · intro j hj
      cases j with
      | zero =>
        simp only [List.getElem?_cons_zero, Nat.add_zero]
        rw [hch]
      | succ i =>
        have hi : i < m := by omega
        rw [List.getElem?_cons_succ, hget i hi]
        have harith : c + 1 + i = c + (i + 1) := by omega
        rw [harith]

theorem frame_offset_lt (len nc c i : ℕ) (hc : c < nc) (hi : i < len / 2 / nc) :
    c * 2 + nc * 2 * i + 1 < len := by
  rw [Nat.div_div_eq_div_mul] at hi
  have h1 : i + 1 ≤ len / (2 * nc) := hi
  have h2 : 2 * nc * (i + 1) ≤ 2 * nc * (len / (2 * nc)) := Nat.mul_le_mul_left _ h1
  have h3 : len / (2 * nc) * (2 * nc) ≤ len := Nat.div_mul_le_self len (2 * nc)
  have h4 : 2 * nc * (i + 1) = nc * 2 * i + 2 * nc := by ring
  have h5 : 2 * nc * (len / (2 * nc)) = len / (2 * nc) * (2 * nc) := by ring
  omega

/-- C5: on a byte buffer whose length is not a multiple of 2 * channelCount,
decodeAudioData floor-divides down to the number of complete frames, never
fails (every DataView read stays in range), returns exactly numChannels
channels whose length is the complete-frame count (or the one-sample
silent channel when that count is zero), and fills sample i of channel c
from the little-endian int16 at byte offset c * 2 + numChannels * 2 * i,
scaled by 1 / 32768; the trailing partial-frame bytes are never read. -/
theorem decode_truncates_partial_frames (data : List ℕ) (nc : ℕ) (hnc : 0 < nc)
    (hmod : data.length % (2 * nc) ≠ 0) :
    ∃ chans, decodeAudioData data nc = some chans ∧ chans.length = nc ∧
      ∀ c, c < nc → ∃ ch, chans[c]? = some ch ∧
        ch.length = max (data.length / 2 / nc) 1 ∧
        ∀ i, i < data.length / 2 / nc → ∃ v,
          readInt16LE data (c * 2 + nc * 2 * i) = some v ∧
          ch[i]? = some ((v : ℚ) / 32768) := by
  by_cases hns : data.length / 2 / nc = 0
  · refine ⟨List.replicate nc [0], ?_, by simp, ?_⟩
    · unfold decodeAudioData
      rw [if_pos hns]
    · intro c hc
      refine ⟨[0], ?_, by simp [hns], by omega⟩
      rw [List.getElem?_eq_getElem (by simpa using hc)]
      simp
  · obtain ⟨chans, hchans, hlen, hget⟩ :=
      decodeChannelsFrom_spec data nc (data.length / 2 / nc)
        (fun c hc i hi => frame_offset_lt data.length nc c i hc hi) nc 0 (by omega)
    refine ⟨chans, ?_, hlen, ?_⟩
    · unfold decodeAudioData
      rw [if_neg hns]
      exact hchans
    · intro c hc
      obtain ⟨ch, hch, hchlen, hchget⟩ :=
        readChannel_spec data (nc * 2) (data.length / 2 / nc) (c * 2)
          (fun i hi => by have := frame_offset_lt data.length nc c i hc hi; omega)
      refine ⟨ch, ?_, by omega, ?_⟩
      · rw [hget c hc]
        simpa using hch
      · intro i hi
        obtain ⟨v, hv⟩ := readInt16LE_isSome data (c * 2 + nc * 2 * i)
          (by have := frame_offset_lt data.length nc c i hc hi; omega)
        refine ⟨v, hv, ?_⟩
        have := hchget i hi
        rw [hv] at this
        simpa using this

/-- C5 (witness): a five-byte stereo buffer has one trailing partial-frame
byte; it decodes without failure into two one-sample channels. -/
theorem decode_truncates_partial_frames_witness :
    0 < 2 ∧ (5 : ℕ) % (2 * 2) ≠ 0 ∧
      (∃ chans, decodeAudioData [1, 0, 255, 127, 99] 2 = some chans ∧ chans.length = 2 ∧
        ∀ c, c < 2 → ∃ ch, chans[c]? = some ch ∧
          ch.length = max (([1, 0, 255, 127, 99] : List ℕ).length / 2 / 2) 1 ∧
          ∀ i, i < ([1, 0, 255, 127, 99] : List ℕ).length / 2 / 2 → ∃ v,
            readInt16LE [1, 0, 255, 127, 99] (c * 2 + 2 * 2 * i) = some v ∧
            ch[i]? = some ((v : ℚ) / 32768)) :=
  ⟨by decide, by decide,
    decode_truncates_partial_frames [1, 0, 255, 127, 99] 2 (by decide) (by decide)⟩

/-- C3 (counterexample): the round-trip claim quantifies over every sample
buffer, but decoding the encoding of the empty buffer yields the
one-sample silent buffer decodeAudioData substitutes when numSamples is
zero, which does not equal the empty buffer under any per-sample bound. -/
theorem pcm_roundtrip_empty_counterexample :
    decodeAudioData (createBlobFromFloat32 ([] : List ℚ)) 1 = some [[0]] ∧
      ∀ ch : List ℚ, decodeAudioData (createBlobFromFloat32 ([] : List ℚ)) 1 = some [ch] →
        ch.length ≠ ([] : List ℚ).length := by
  have h : decodeAudioData (createBlobFromFloat32 ([] : List ℚ)) 1 = some [[0]] := by decide
  refine ⟨h, ?_⟩
  intro ch hch
  rw [h] at hch
  simp only [Option.some.injEq, List.cons.injEq, and_true] at hch
  rw [← hch]
  decide

/-- C3 (amended): for every nonempty sample buffer with values in [-1, 1],
decoding the PCM16 encoding gives back one channel of the same length
whose samples differ from the originals by at most 1 / 32768; the empty
buffer instead decodes to the one-sample silent buffer. -/
theorem pcm_roundtrip_nonempty (b : List ℚ) (hne : b ≠ [])
    (hb : ∀ s ∈ b, -1 ≤ s ∧ s ≤ 1) :
    ∃ ch, decodeAudioData (createBlobFromFloat32 b) 1 = some [ch] ∧
      ch.length = b.length ∧
      ∀ i, i < b.length → ∃ u v, ch[i]? = some u ∧ b[i]? = some v ∧
        |u - v| ≤ 1 / 32768 := by
  have hlen : (createBlobFromFloat32 b).length = 2 * b.length := createBlob_length b
  have hbpos : 0 < b.length := List.length_pos.mpr hne
  have hns : (createBlobFromFloat32 b).length / 2 / 1 = b.length := by
    rw [hlen]
    omega
  obtain ⟨l, hl, hllen, hlget⟩ :=
    readChannel_spec (createBlobFromFloat32 b) (1 * 2) b.length (0 * 2) (by
      intro i hi
      rw [hlen]
      omega)
  refine ⟨l, ?_, hllen, ?_⟩
  · simp only [decodeAudioData, hns]
    rw [if_neg (by omega)]
    unfold decodeChannelsFrom
    rw [hl]
    simp [decodeChannelsFrom]
  · intro i hi
    have hoff : 0 * 2 + 1 * 2 * i = 2 * i := by omega
    have hr := createBlob_readInt16 b i hi
    have hgd : b.getD i 0 = b[i] := List.getD_eq_getElem b 0 hi
    have hget := hlget i hi
    rw [hoff, hr] at hget
    refine ⟨(encSample (b.getD i 0) : ℚ) / 32768, b[i], by simpa using hget,
      List.getElem?_eq_getElem hi, ?_⟩
    rw [hgd]
    obtain ⟨h1, h2⟩ := hb b[i] (List.getElem_mem hi)
    exact encSample_error b[i] h1 h2

/-- C3 (witness): the one-sample buffer holding 1/2 round-trips within
1 / 32768. -/
theorem pcm_roundtrip_nonempty_witness :
    ([1/2] : List ℚ) ≠ [] ∧
      (∃ ch, decodeAudioData (createBlobFromFloat32 [1/2]) 1 = some [ch] ∧
        ch.length = ([1/2] : List ℚ).length ∧
        ∀ i, i < ([1/2] : List ℚ).length → ∃ u v, ch[i]? = some u ∧
          ([1/2] : List ℚ)[i]? = some v ∧ |u - v| ≤ 1 / 32768) :=
  ⟨by decide, pcm_roundtrip_nonempty [1/2] (by decide)
    (by intro s hs; simp only [List.mem_singleton] at hs; subst hs; norm_num)⟩

/-- C10: when the resampled mono signal is shorter than 1024 samples the
window size floors to 0, every per-window maximum ranges over an empty
window, and the whole 1024-point envelope is 0 whatever the signal holds. -/
theorem waveform_short_signal_zero (mono : List ℚ) (h : mono.length < 1024) :
    waveformData mono = List.replicate 1024 0 := by
  have hstep : mono.length / 1024 = 0 := Nat.div_eq_of_lt h
  simp only [waveformData, hstep, List.range_zero, List.foldl_nil]
  have : (List.range 1024).map (fun _ => (0 : ℚ)) = List.replicate 1024 0 := by
    rw [List.map_const', List.length_range]
  exact this

/-- C10 (witness): a two-sample signal with nonzero content yields the
all-zero envelope. -/
theorem waveform_short_signal_zero_witness :
    ([1/2, -3/4] : List ℚ).length < 1024 ∧
      waveformData [1/2, -3/4] = List.replicate 1024 0 :=
  ⟨by decide, waveform_short_signal_zero [1/2, -3/4] (by decide)⟩

theorem validAtB_handleAudioChunk (s : SchedState) (t d : ℚ) (h : validAtB s t = true) :
    handleAudioChunk s t d =
      ⟨⟨s.playbackState, s.nextStartTime + d⟩, some s.nextStartTime, none⟩ := by
  unfold validAtB at h
  simp only [Bool.and_eq_true, decide_eq_true_eq] at h
  obtain ⟨⟨⟨h1, h2⟩, h3⟩, h4⟩ := h
  simp only [handleAudioChunk]
  rw [if_neg (by simp [h3, h4])]
  simp only [if_neg h1]
  rw [if_neg h2]

theorem durTake_cons_succ (t d : ℚ) (rest : List (ℚ × ℚ)) (j : ℕ) :
    durTake ((t, d) :: rest) (j + 1) = d + durTake rest j := by
  simp [durTake, List.take_succ_cons]

theorem runChunks_get (s : SchedState) (inputs : List (ℚ × ℚ))
    (h : allValidB s inputs = true) :
    ∀ k, k < inputs.length →
      (runChunks s inputs).2[k]? = some (some (s.nextStartTime + durTake inputs k)) := by
  induction inputs generalizing s with
  | nil =>
    intro k hk
    simp at hk
  | cons td rest ih =>
    obtain ⟨t, d⟩ := td
    unfold allValidB at h
    simp only [Bool.and_eq_true] at h
    obtain ⟨h1, h2⟩ := h
    have hstep := validAtB_handleAudioChunk s t d h1
    rw [hstep] at h2
    intro k hk
    simp only [runChunks, hstep]
    cases k with
    | zero =>
      simp [durTake]
    | succ j =>
      have hj : j < rest.length := by simpa using Nat.lt_of_succ_lt_succ hk
      have hrec := ih _ h2 j hj
      simp only [List.getElem?_cons_succ]
      rw [hrec, durTake_cons_succ]
      norm_num
      ring

/-- C1: over any run of the chunk handler in which the valid-clock
condition (cursor not the sentinel, not behind the device clock, playback
neither paused nor stopped) holds at every arrival, every segment is
scheduled, and segment k + 1 starts exactly at segment k's start time
plus segment k's duration: zero gap and zero overlap. -/
theorem scheduler_gapless (s : SchedState) (inputs : List (ℚ × ℚ))
    (h : allValidB s inputs = true) (k : ℕ) (hk : k + 1 < inputs.length) :
    ∃ u td, (runChunks s inputs).2[k]? = some (some u) ∧
      inputs[k]? = some td ∧
      (runChunks s inputs).2[k + 1]? = some (some (u + td.2)) := by
  have hk0 : k < inputs.length := by omega
  have g1 := runChunks_get s inputs h k hk0
  have g2 := runChunks_get s inputs h (k + 1) hk
  refine ⟨s.nextStartTime + durTake inputs k, inputs[k], g1,
    List.getElem?_eq_getElem hk0, ?_⟩
  rw [g2]
  have hdur : durTake inputs (k + 1) = durTake inputs k + inputs[k].2 := by
    unfold durTake
    rw [List.take_succ, List.getElem?_eq_getElem hk0, List.map_append, List.sum_append]
    simp
  rw [hdur, add_assoc]

/-- C1 (witness): starting from a cursor at 10 with segments of durations
2 and 4 arriving at device times 1 and 3, the second segment starts
exactly at the first start plus 2. -/
theorem scheduler_gapless_witness :
    allValidB ⟨PlaybackState.playing, 10⟩ [(1, 2), (3, 4)] = true ∧ 0 + 1 < 2 ∧
      (∃ u td,
        (runChunks ⟨PlaybackState.playing, 10⟩ [(1, 2), (3, 4)]).2[0]? = some (some u) ∧
        ([((1 : ℚ), (2 : ℚ)), (3, 4)])[0]? = some td ∧
        (runChunks ⟨PlaybackState.playing, 10⟩ [(1, 2), (3, 4)]).2[0 + 1]? =
          some (some (u + td.2))) :=
  ⟨by
    simp only [allValidB]
    rw [validAtB_handleAudioChunk _ _ _ (by decide)]
    simp only [validAtB, Bool.and_eq_true, decide_eq_true_eq]
    norm_num
    decide,
  by decide,
  scheduler_gapless ⟨PlaybackState.playing, 10⟩ [(1, 2), (3, 4)]
    (by
      simp only [allValidB]
      rw [validAtB_handleAudioChunk _ _ _ (by decide)]
      simp only [validAtB, Bool.and_eq_true, decide_eq_true_eq]
      norm_num
      decide)
    0 (by decide)⟩

/-- C2: when a segment arrives while playback is neither paused nor
stopped, the cursor is non-sentinel and has fallen strictly behind the
device clock, the handler switches to the loading state, resets the
cursor to the 0 sentinel and drops the segment: nothing is scheduled (in
particular nothing in the past), no deferred transition is armed, and the
handler returns normally rather than failing. -/
theorem underrun_drops_segment (s : SchedState) (t d : ℚ)
    (h1 : s.playbackState ≠ PlaybackState.paused)
    (h2 : s.playbackState ≠ PlaybackState.stopped)
    (h3 : s.nextStartTime ≠ 0) (h4 : s.nextStartTime < t) :
    handleAudioChunk s t d = ⟨⟨PlaybackState.loading, 0⟩, none, none⟩ := by
  simp only [handleAudioChunk]
  rw [if_neg (by simp [h1, h2])]
  simp only [if_neg h3]
  rw [if_pos h4]

/-- C2 (witness): with the cursor at 5 and the device clock at 6 the
arriving segment is dropped and the state moves to loading. -/
theorem underrun_drops_segment_witness :
    (⟨PlaybackState.playing, 5⟩ : SchedState).playbackState ≠ PlaybackState.paused ∧
      (⟨PlaybackState.playing, 5⟩ : SchedState).playbackState ≠ PlaybackState.stopped ∧
      (⟨PlaybackState.playing, 5⟩ : SchedState).nextStartTime ≠ 0 ∧
      (⟨PlaybackState.playing, 5⟩ : SchedState).nextStartTime < 6 ∧
      handleAudioChunk ⟨PlaybackState.playing, 5⟩ 6 1 =
        ⟨⟨PlaybackState.loading, 0⟩, none, none⟩ :=
  ⟨by decide, by decide, by decide, by decide,
    underrun_drops_segment ⟨PlaybackState.playing, 5⟩ 6 1
      (by decide) (by decide) (by decide) (by decide)⟩

/-- C6: a segment arriving at the 0 sentinel (playback neither paused nor
stopped) re-bases the cursor to currentTime + bufferTime with
bufferTime = 2, schedules the segment there rather than dropping it (the
re-based cursor exceeds the device clock), advances the cursor by the
segment duration and arms the deferred transition to playing after
bufferTime seconds (the 2000 ms setTimeout). -/
theorem lead_buffer_init (s : SchedState) (t d : ℚ)
    (h1 : s.playbackState ≠ PlaybackState.paused)
    (h2 : s.playbackState ≠ PlaybackState.stopped)
    (h3 : s.nextStartTime = 0) :
    bufferTime = 2 ∧ t < t + bufferTime ∧
      handleAudioChunk s t d =
        ⟨⟨s.playbackState, t + bufferTime + d⟩, some (t + bufferTime),
          some (bufferTime * 1000)⟩ := by
  refine ⟨rfl, by unfold bufferTime; linarith, ?_⟩
  simp only [handleAudioChunk]
  rw [if_neg (by simp [h1, h2])]
  simp only [if_pos h3]
  rw [if_neg (by unfold bufferTime; intro hc; linarith)]

/-- C6 (witness): in the loading state with the sentinel cursor, a
segment arriving at device time 7 with duration 1/2 is scheduled at 9 and
the cursor advances to 9.5. -/
theorem lead_buffer_init_witness :
    (⟨PlaybackState.loading, 0⟩ : SchedState).playbackState ≠ PlaybackState.paused ∧
      (⟨PlaybackState.loading, 0⟩ : SchedState).playbackState ≠ PlaybackState.stopped ∧
      (⟨PlaybackState.loading, 0⟩ : SchedState).nextStartTime = 0 ∧
      (bufferTime = 2 ∧ (7 : ℚ) < 7 + bufferTime ∧
        handleAudioChunk ⟨PlaybackState.loading, 0⟩ 7 (1/2) =
          ⟨⟨PlaybackState.loading, 7 + bufferTime + 1/2⟩, some (7 + bufferTime),
            some (bufferTime * 1000)⟩) :=
  ⟨by decide, by decide, by decide,
    lead_buffer_init ⟨PlaybackState.loading, 0⟩ 7 (1/2) (by decide) (by decide) (by decide)⟩

/-- C7: pauseAudio sets the paused state (after which the chunk handler
schedules nothing), pins the master gain at 1 at the current time and
ramps it linearly to 0 at 0.1 seconds later, resets the cursor to the 0
sentinel, and swaps outputNode for a freshly created gain node connected
to the low-pass filter, so segments already scheduled on the old node no
longer share the node new segments would use. -/
theorem pause_postconditions (s : AppState) (now : ℚ)
    (hfresh : s.outputNodeId < s.nextNodeId) :
    (pauseAudio s now).sched.playbackState = PlaybackState.paused ∧
      (∀ t d, (handleAudioChunk (pauseAudio s now).sched t d).scheduledAt = none) ∧
      (pauseAudio s now).masterGainEvents =
        s.masterGainEvents ++ [⟨now, 1, false⟩, ⟨now + 1/10, 0, true⟩] ∧
      (pauseAudio s now).sched.nextStartTime = 0 ∧
      (pauseAudio s now).outputNodeId ≠ s.outputNodeId ∧
      ((pauseAudio s now).outputNodeId, "lowPassFilter") ∈ (pauseAudio s now).connections := by
  refine ⟨rfl, ?_, rfl, rfl, ?_, ?_⟩
  · intro t d
    simp [pauseAudio, handleAudioChunk]
  · simp only [pauseAudio]
    omega
  · simp [pauseAudio]

/-- C7 (witness): pausing a playing app whose output node is node 0 and
whose next fresh node is 1, at device time 9. -/
theorem pause_postconditions_witness :
    (⟨⟨PlaybackState.playing, 4⟩, false, [], 0, 1, []⟩ : AppState).outputNodeId <
        (⟨⟨PlaybackState.playing, 4⟩, false, [], 0, 1, []⟩ : AppState).nextNodeId ∧
      ((pauseAudio ⟨⟨PlaybackState.playing, 4⟩, false, [], 0, 1, []⟩ 9).sched.playbackState =
          PlaybackState.paused ∧
        (∀ t d, (handleAudioChunk
            (pauseAudio ⟨⟨PlaybackState.playing, 4⟩, false, [], 0, 1, []⟩ 9).sched t d).scheduledAt =
          none) ∧
        (pauseAudio ⟨⟨PlaybackState.playing, 4⟩, false, [], 0, 1, []⟩ 9).masterGainEvents =
          ([] : List GainEvent) ++ [⟨9, 1, false⟩, ⟨9 + 1/10, 0, true⟩] ∧
        (pauseAudio ⟨⟨PlaybackState.playing, 4⟩, false, [], 0, 1, []⟩ 9).sched.nextStartTime = 0 ∧
        (pauseAudio ⟨⟨PlaybackState.playing, 4⟩, false, [], 0, 1, []⟩ 9).outputNodeId ≠
          (⟨⟨PlaybackState.playing, 4⟩, false, [], 0, 1, []⟩ : AppState).outputNodeId ∧
        ((pauseAudio ⟨⟨PlaybackState.playing, 4⟩, false, [], 0, 1, []⟩ 9).outputNodeId,
            "lowPassFilter") ∈
          (pauseAudio ⟨⟨PlaybackState.playing, 4⟩, false, [], 0, 1, []⟩ 9).connections) :=
  ⟨by decide, pause_postconditions ⟨⟨PlaybackState.playing, 4⟩, false, [], 0, 1, []⟩ 9 (by decide)⟩

theorem jsRound_one : jsRound 1 = 1 := by
  unfold jsRound
  norm_num

theorem crusherQuantize_error (step x : ℚ) (hstep : 0 < step) :
    |crusherQuantize step x - x| ≤ step / 2 := by
  unfold crusherQuantize
  have h1 : ((⌊x / step + 1/2⌋ : ℤ) : ℚ) ≤ x / step + 1/2 := Int.floor_le _
  have h2 : x / step + 1/2 < ((⌊x / step + 1/2⌋ : ℤ) : ℚ) + 1 := Int.lt_floor_add_one _
  have hb1 : step * ((⌊x / step + 1/2⌋ : ℤ) : ℚ) ≤ step * (x / step + 1/2) :=
    mul_le_mul_of_nonneg_left h1 hstep.le
  have hb2 : step * (x / step + 1/2) < step * (((⌊x / step + 1/2⌋ : ℤ) : ℚ) + 1) :=
    mul_lt_mul_of_pos_left h2 hstep
  have hx : step * (x / step + 1/2) = x + step / 2 := by
    field_simp
    ring
  have hexp : step * (((⌊x / step + 1/2⌋ : ℤ) : ℚ) + 1) =
      step * ((⌊x / step + 1/2⌋ : ℤ) : ℚ) + step := by ring
  rw [hexp] at hb2
  rw [hx] at hb1 hb2
  rw [abs_le]
  constructor
  · linarith
  · linarith

theorem bitCrusherGo_one (step : ℚ) (input : List (ℚ × ℚ)) :
    ∀ (j : ℕ) (hold : ℚ × ℚ) (k : ℕ), k < input.length →
      ∃ p, input[k]? = some p ∧
        (bitCrusherGo step 1 j hold input)[k]? =
          some (crusherQuantize step p.1, crusherQuantize step p.2) := by
  induction input with
  | nil =>
    intro j hold k hk
    simp at hk
  | cons x rest ih =>
    intro j hold k hk
    have hcond : (1 : ℤ) ≠ 0 ∧ (j : ℤ) % 1 = 0 := ⟨one_ne_zero, Int.emod_one _⟩
    simp only [bitCrusherGo, if_pos hcond]
    cases k with
    | zero => exact ⟨x, by simp, by simp⟩
    | succ m =>
      have hm : m < rest.length := by simpa using Nat.lt_of_succ_lt_succ hk
      simpa using ih (j + 1) x m hm

/-- C9: with bitDepth 16 and sampleRateReduction 1 the hold refreshes on
every sample (round(1) = 1 and i mod 1 = 0 always), so each output frame
is the quantization of the corresponding input frame, and quantization
with step (1/2) ^ 16 moves each channel by at most step / 2, hence by at
most the quantization step (1/2) ^ 16, whatever the previous hold state. -/
theorem bitcrusher_near_identity (hold : ℚ × ℚ) (input : List (ℚ × ℚ)) (k : ℕ)
    (hk : k < input.length) :
    ∃ p q, input[k]? = some p ∧ (bitCrusherProcess 16 1 hold input)[k]? = some q ∧
      |q.1 - p.1| ≤ (1/2 : ℚ) ^ 16 ∧ |q.2 - p.2| ≤ (1/2 : ℚ) ^ 16 := by
  have hstep : (0 : ℚ) < (1/2) ^ 16 := by positivity
  obtain ⟨p, hp, hq⟩ := bitCrusherGo_one ((1/2) ^ 16) input 0 hold k hk
  unfold bitCrusherProcess
  rw [jsRound_one]
  refine ⟨p, (crusherQuantize ((1/2) ^ 16) p.1, crusherQuantize ((1/2) ^ 16) p.2),
    hp, hq, ?_, ?_⟩
  · have h := crusherQuantize_error ((1/2) ^ 16) p.1 hstep
    have hh : |crusherQuantize ((1/2) ^ 16) p.1 - p.1| ≤ (1/2 : ℚ) ^ 16 := by linarith
    exact hh
  · have h := crusherQuantize_error ((1/2) ^ 16) p.2 hstep
    have hh : |crusherQuantize ((1/2) ^ 16) p.2 - p.2| ≤ (1/2 : ℚ) ^ 16 := by linarith
    exact hh

/-- C9 (witness): one frame at 1/3 on the left and -1/3 on the right is
reproduced within (1/2) ^ 16 on both channels. -/
theorem bitcrusher_near_identity_witness :
    0 < ([((1 : ℚ)/3, -(1 : ℚ)/3)] : List (ℚ × ℚ)).length ∧
      (∃ p q, ([((1 : ℚ)/3, -(1 : ℚ)/3)] : List (ℚ × ℚ))[0]? = some p ∧
        (bitCrusherProcess 16 1 (0, 0) [((1 : ℚ)/3, -(1 : ℚ)/3)])[0]? = some q ∧
        |q.1 - p.1| ≤ (1/2 : ℚ) ^ 16 ∧ |q.2 - p.2| ≤ (1/2 : ℚ) ^ 16) :=
  ⟨by decide, bitcrusher_near_identity (0, 0) [((1 : ℚ)/3, -(1 : ℚ)/3)] 0 (by decide)⟩

/-- Safety condition for the delay feedback path: the feedback parameter
is inside [0, 1) and the stored Kaoss y coordinate is inside [0, 1]. -/
def DelayInv (s : FxState) : Prop :=
  0 ≤ s.delayFeedback ∧ s.delayFeedback < 1 ∧ 0 ≤ s.kaossY ∧ s.kaossY ≤ 1

theorem delayInv_init : DelayInv initFxState := by
  unfold DelayInv
  refine ⟨?_, ?_, ?_, ?_⟩ <;> norm_num [initFxState]

theorem delayInv_updateKaossFx (pw : ℚ → ℚ → ℚ) (s : FxState) (h : DelayInv s) :
    DelayInv (updateKaossFx pw s) := by
  obtain ⟨h1, h2, h3, h4⟩ := h
  unfold updateKaossFx
  cases hp : s.activeKaossProgram
  · refine ⟨?_, ?_, h3, h4⟩
    · have : (0 : ℚ) ≤ 1 - s.kaossY := by linarith
      positivity
    · nlinarith
  · exact ⟨h1, h2, h3, h4⟩

theorem delayInv_updateKaossPosition (pw : ℚ → ℚ → ℚ) (s : FxState) (px py : ℚ)
    (h : DelayInv s) : DelayInv (updateKaossPosition pw s px py) := by
  obtain ⟨h1, h2, _, _⟩ := h
  unfold updateKaossPosition
  apply delayInv_updateKaossFx
  refine ⟨h1, h2, le_max_left 0 _, ?_⟩
  exact max_le (by norm_num) (min_le_left 1 _)

theorem delayInv_step (pw : ℚ → ℚ → ℚ) (a b : FxState) (hstep : FxUiStep pw a b)
    (h : DelayInv a) : DelayInv b := by
  cases hstep with
  | controlChange label value hl =>
    fin_cases hl
    all_goals exact ⟨h.1, h.2.1, h.2.2.1, h.2.2.2⟩
  | fxToggle effect hl =>
    fin_cases hl
    all_goals exact ⟨h.1, h.2.1, h.2.2.1, h.2.2.2⟩
  | kaossPointer px py => exact delayInv_updateKaossPosition pw a px py h
  | kaossProgram p =>
    simp only [handleKaossProgramChange]
    split
    · exact delayInv_updateKaossFx pw _ ⟨h.1, h.2.1, h.2.2.1, h.2.2.2⟩
    · exact ⟨h.1, h.2.1, h.2.2.1, h.2.2.2⟩
  | resetNeutral => exact h
  | kaossActive b => exact h

theorem delayInv_reachable (pw : ℚ → ℚ → ℚ) (s : FxState) (h : FxReachable pw s) :
    DelayInv s := by
  induction h with
  | refl => exact delayInv_init
  | tail hab hstep ih => exact delayInv_step pw _ _ hstep ih

theorem updateFxChain_delayFeedback (s : FxState) (v : ℚ)
    (h : ("delayFeedbackGain.gain", v) ∈ updateFxChain s) : v = s.delayFeedback := by
  simp only [updateFxChain, List.mem_cons, List.not_mem_nil, or_false, Prod.mk.injEq] at h
  rcases h with h | h | h | h | h | h | h | h | h | h | h | h | h | h | h
  all_goals first
    | exact h.2
    | (exact absurd h.1 (by decide))

/-- C8 (counterexample): the Delay Fbk case of handleControlChange stores
the incoming value with no clamp, so a control-change event carrying 3/2
puts 3/2 into delayFeedback and updateFxChain then issues exactly that
value, not below 1, to the delay feedback gain node. -/
theorem delay_feedback_no_clamp_counterexample :
    (handleControlChange initFxState "Delay Fbk" (3/2)).delayFeedback = 3/2 ∧
      ("delayFeedbackGain.gain", (3/2 : ℚ)) ∈
        updateFxChain (handleControlChange initFxState "Delay Fbk" (3/2)) ∧
      ¬ ((3/2 : ℚ) < 1) := by
  have h1 : (handleControlChange initFxState "Delay Fbk" (3/2)).delayFeedback = 3/2 := by
    simp [handleControlChange]
  refine ⟨h1, ?_, by norm_num⟩
  simp [updateFxChain, h1]

/-- C8 (amended): for every effects-chain state reachable from the
initial state through the rendered user-interface events, the delay
feedback value updateFxChain applies to the feedback gain node lies in
[0, 1): no rendered slider emits the Delay Fbk label (whose handler case
performs no clamping), and the Kaoss LPF Sweep Delay mapping keeps the
value at most 0.85 because it scales a clamped coordinate, rather than by
clamping the product itself. -/
theorem delay_feedback_reachable_bound (pw : ℚ → ℚ → ℚ) (s : FxState)
    (h : FxReachable pw s) (v : ℚ)
    (hv : ("delayFeedbackGain.gain", v) ∈ updateFxChain s) : 0 ≤ v ∧ v < 1 := by
  have hinv := delayInv_reachable pw s h
  rw [updateFxChain_delayFeedback s v hv]
  exact ⟨hinv.1, hinv.2.1⟩

/-- C8 (witness): at the initial state, reachable by the empty event
sequence, the value issued to the feedback gain node is 3/10, which the
amended theorem places in [0, 1). -/
theorem delay_feedback_reachable_bound_witness :
    FxReachable (fun _ _ => 0) initFxState ∧
      ("delayFeedbackGain.gain", (3/10 : ℚ)) ∈ updateFxChain initFxState ∧
      (0 ≤ (3/10 : ℚ) ∧ (3/10 : ℚ) < 1) :=
  ⟨Relation.ReflTransGen.refl, by simp [updateFxChain, initFxState],
    delay_feedback_reachable_bound (fun _ _ => 0) initFxState Relation.ReflTransGen.refl
      (3/10) (by simp [updateFxChain, initFxState])⟩
